import Mathlib

/-!
Verification of the ShapeStormer camera / primitive-manager core
(`src/camera.rs`, `src/primitives.rs`) against its natural-language
specification.  Floating-point (`f32`) values are modelled as real
numbers; `u32` values as natural numbers.  The cgmath vector/matrix
operations used by the code are embedded below.
-/

noncomputable section

open Real

/-! ## Vector / matrix layer (the cgmath subset the code uses) -/

structure Vec3 where
  x : ℝ
  y : ℝ
  z : ℝ

structure Vec4 where
  x : ℝ
  y : ℝ
  z : ℝ
  w : ℝ

/-- cgmath `Matrix4`: four columns `x y z w`. -/
structure Mat4 where
  x : Vec4
  y : Vec4
  z : Vec4
  w : Vec4

def Vec3.add (a b : Vec3) : Vec3 :=
  ⟨a.x + b.x, a.y + b.y, a.z + b.z⟩

def Vec3.smul (k : ℝ) (v : Vec3) : Vec3 :=
  ⟨k * v.x, k * v.y, k * v.z⟩

def Vec3.neg (v : Vec3) : Vec3 :=
  ⟨-v.x, -v.y, -v.z⟩

def Vec3.dot (a b : Vec3) : ℝ :=
  a.x * b.x + a.y * b.y + a.z * b.z

def Vec3.cross (a b : Vec3) : Vec3 :=
  ⟨a.y * b.z - a.z * b.y, a.z * b.x - a.x * b.z, a.x * b.y - a.y * b.x⟩

def Vec3.magnitude (v : Vec3) : ℝ :=
  Real.sqrt (v.x * v.x + v.y * v.y + v.z * v.z)

/-- cgmath `InnerSpace::normalize`: `self * (1 / magnitude)`. -/
def Vec3.normalize (v : Vec3) : Vec3 :=
  Vec3.smul (1 / v.magnitude) v

def Vec3.unit_y : Vec3 := ⟨0, 1, 0⟩

def Vec4.add (a b : Vec4) : Vec4 :=
  ⟨a.x + b.x, a.y + b.y, a.z + b.z, a.w + b.w⟩

def Vec4.smul (k : ℝ) (v : Vec4) : Vec4 :=
  ⟨k * v.x, k * v.y, k * v.z, k * v.w⟩

def Mat4.mulVec (m : Mat4) (v : Vec4) : Vec4 :=
  (Vec4.smul v.x m.x).add ((Vec4.smul v.y m.y).add ((Vec4.smul v.z m.z).add (Vec4.smul v.w m.w)))

def Mat4.mul (a b : Mat4) : Mat4 :=
  ⟨a.mulVec b.x, a.mulVec b.y, a.mulVec b.z, a.mulVec b.w⟩

def Mat4.identity : Mat4 :=
  ⟨⟨1, 0, 0, 0⟩, ⟨0, 1, 0, 0⟩, ⟨0, 0, 1, 0⟩, ⟨0, 0, 0, 1⟩⟩

/-- cgmath `Matrix4::look_to_rh(eye, dir, up)`. -/
def lookToRh (eye dir up : Vec3) : Mat4 :=
  let f := dir.normalize
  let s := (f.cross up).normalize
  let u := s.cross f
  { x := ⟨s.x, u.x, -f.x, 0⟩
    y := ⟨s.y, u.y, -f.y, 0⟩
    z := ⟨s.z, u.z, -f.z, 0⟩
    w := ⟨-(Vec3.dot eye s), -(Vec3.dot eye u), Vec3.dot eye f, 1⟩ }

/-! ## Rust / cgmath angle arithmetic

`Rad<f32>` is modelled as ℝ.  cgmath's `Angle::opposite` is
`normalize(self + turn_div_2())`, where `normalize` reduces into
`[0, 2π)` using Rust's `%` (truncated remainder). -/

/-- Rust `trunc`: round a real toward zero (as an integer). -/
def rustTrunc (t : ℝ) : ℤ :=
  if 0 ≤ t then ⌊t⌋ else ⌈t⌉

/-- Rust `%` on floats: `x - y * trunc (x / y)`. -/
def rustRem (x y : ℝ) : ℝ :=
  x - y * (rustTrunc (x / y) : ℝ)

/-- cgmath `Angle::normalize`: wrap into `[0, full_turn)`. -/
def radNormalize (θ : ℝ) : ℝ :=
  let r := rustRem θ (2 * π)
  if r < 0 then r + 2 * π else r

/-- cgmath `Angle::opposite`: `normalize(self + turn_div_2())`. -/
def radOpposite (θ : ℝ) : ℝ :=
  radNormalize (θ + π)

/-! ## Camera (`src/camera.rs`) -/

def SAFE_FRAC_PI_2 : ℝ := π / 2 - 0.0001

structure Camera where
  position : Vec3
  yaw : ℝ
  pitch : ℝ

def Camera.new (position : Vec3) (yaw pitch : ℝ) : Camera :=
  { position := position, yaw := yaw, pitch := pitch }

def Camera.calc_matrix (c : Camera) : Mat4 :=
  let sin_pitch := Real.sin c.pitch
  let cos_pitch := Real.cos c.pitch
  let sin_yaw := Real.sin c.yaw
  let cos_yaw := Real.cos c.yaw
  lookToRh c.position
    (Vec3.normalize ⟨cos_pitch * cos_yaw, sin_pitch, cos_pitch * sin_yaw⟩)
    Vec3.unit_y

def Camera.calc_inverse_matrix (c : Camera) : Mat4 :=
  let sin_pitch := Real.sin (radOpposite c.pitch)
  let cos_pitch := Real.cos (radOpposite c.pitch)
  let sin_yaw := Real.sin (radOpposite c.yaw)
  let cos_yaw := Real.cos (radOpposite c.yaw)
  lookToRh (Vec3.smul (-1) c.position)
    (Vec3.normalize ⟨cos_pitch * cos_yaw, sin_pitch, cos_pitch * sin_yaw⟩)
    Vec3.unit_y

/-- The inverse-view matrix as the specification words it: a look-to
transform from the negated position using the *negated* yaw and pitch
angles (compare with `Camera.calc_inverse_matrix`, which uses
`Angle::opposite`, i.e. the angles offset by half a turn). -/
def inverse_matrix_spec (c : Camera) : Mat4 :=
  lookToRh (Vec3.smul (-1) c.position)
    (Vec3.normalize
      ⟨Real.cos (-c.pitch) * Real.cos (-c.yaw), Real.sin (-c.pitch),
        Real.cos (-c.pitch) * Real.sin (-c.yaw)⟩)
    Vec3.unit_y

/-! ### Helper lemmas about angle wrapping -/

lemma radNormalize_eq_add_int_mul (x : ℝ) :
    ∃ k : ℤ, radNormalize x = x + (k : ℝ) * (2 * π) := by
  unfold radNormalize rustRem
  dsimp only
  split
  · exact ⟨-(rustTrunc (x / (2 * π))) + 1, by push_cast; ring⟩
  · exact ⟨-(rustTrunc (x / (2 * π))), by push_cast; ring⟩

lemma cos_radNormalize (x : ℝ) : Real.cos (radNormalize x) = Real.cos x := by
  obtain ⟨k, hk⟩ := radNormalize_eq_add_int_mul x
  rw [hk, Real.cos_add_int_mul_two_pi]

lemma sin_radNormalize (x : ℝ) : Real.sin (radNormalize x) = Real.sin x := by
  obtain ⟨k, hk⟩ := radNormalize_eq_add_int_mul x
  rw [hk, Real.sin_add_int_mul_two_pi]

lemma cos_radOpposite (θ : ℝ) : Real.cos (radOpposite θ) = -Real.cos θ := by
  rw [radOpposite, cos_radNormalize, Real.cos_add]
  simp

lemma sin_radOpposite (θ : ℝ) : Real.sin (radOpposite θ) = -Real.sin θ := by
  rw [radOpposite, sin_radNormalize, Real.sin_add]
  simp

/-! ## CameraController (`src/camera.rs`) -/

/-- winit `ElementState`. -/
inductive ElementState where
  | Pressed
  | Released
deriving DecidableEq

/-- winit `VirtualKeyCode`, restricted to the keys the controller
matches on; `other code` stands for every remaining key of the enum
(the `_` arm of the Rust `match`). -/
inductive VirtualKeyCode where
  | W
  | S
  | A
  | D
  | Up
  | Down
  | Left
  | Right
  | Space
  | LShift
  | other (code : ℕ)

/-- winit `MouseScrollDelta` (x component kept for fidelity). -/
inductive MouseScrollDelta where
  | LineDelta (x y : ℝ)
  | PixelDelta (x y : ℝ)

structure CameraController where
  amount_left : ℝ
  amount_right : ℝ
  amount_forward : ℝ
  amount_backward : ℝ
  amount_up : ℝ
  amount_down : ℝ
  rotate_horizontal : ℝ
  rotate_vertical : ℝ
  scroll : ℝ
  speed : ℝ
  sensitivity : ℝ

def CameraController.new (speed sensitivity : ℝ) : CameraController :=
  { amount_left := 0, amount_right := 0, amount_forward := 0, amount_backward := 0
    amount_up := 0, amount_down := 0, rotate_horizontal := 0, rotate_vertical := 0
    scroll := 0, speed := speed, sensitivity := sensitivity }

def CameraController.process_keyboard (s : CameraController) (key : VirtualKeyCode)
    (state : ElementState) : CameraController × Bool :=
  let amount : ℝ := if state = ElementState.Pressed then 1.0 else 0.0
  match key with
  | .W | .Up => ({ s with amount_forward := amount }, true)
  | .S | .Down => ({ s with amount_backward := amount }, true)
  | .A | .Left => ({ s with amount_left := amount }, true)
  | .D | .Right => ({ s with amount_right := amount }, true)
  | .Space => ({ s with amount_up := amount }, true)
  | .LShift => ({ s with amount_down := amount }, true)
  | .other _ => (s, false)

def CameraController.process_mouse (s : CameraController) (mouse_dx mouse_dy : ℝ) :
    CameraController :=
  { s with rotate_horizontal := mouse_dx, rotate_vertical := mouse_dy }

def CameraController.process_scroll (s : CameraController) (delta : MouseScrollDelta) :
    CameraController :=
  { s with scroll :=
      match delta with
      | .LineDelta _ scroll => -scroll * 0.5
      | .PixelDelta _ scroll => -scroll }

/-- `CameraController::update_camera(&mut self, camera, dt)`; the pair is
(controller after the call, camera after the call). -/
def CameraController.update_camera (s : CameraController) (camera : Camera) (dt : ℝ) :
    CameraController × Camera :=
  let yaw_sin := Real.sin camera.yaw
  let yaw_cos := Real.cos camera.yaw
  let forward := Vec3.normalize ⟨yaw_cos, 0, yaw_sin⟩
  let right := Vec3.normalize ⟨-yaw_sin, 0, yaw_cos⟩
  let pos1 := camera.position.add
    (Vec3.smul ((s.amount_forward - s.amount_backward) * s.speed * dt) forward)
  let pos2 := pos1.add
    (Vec3.smul ((s.amount_right - s.amount_left) * s.speed * dt) right)
  let pitch_sin := Real.sin camera.pitch
  let pitch_cos := Real.cos camera.pitch
  let scrollward := Vec3.normalize ⟨pitch_cos * yaw_cos, pitch_sin, pitch_cos * yaw_sin⟩
  let pos3 := pos2.add
    (Vec3.smul (s.scroll * s.speed * s.sensitivity * dt) scrollward)
  let pos4 : Vec3 := ⟨pos3.x, pos3.y + (s.amount_up - s.amount_down) * s.speed * dt, pos3.z⟩
  let yaw1 := camera.yaw + s.rotate_horizontal * s.sensitivity * dt
  let pitch1 := camera.pitch + -s.rotate_vertical * s.sensitivity * dt
  let pitch2 :=
    if pitch1 < -SAFE_FRAC_PI_2 then -SAFE_FRAC_PI_2
    else if pitch1 > SAFE_FRAC_PI_2 then SAFE_FRAC_PI_2
    else pitch1
  ({ s with scroll := 0, rotate_horizontal := 0, rotate_vertical := 0 },
    { camera with position := pos4, yaw := yaw1, pitch := pitch2 })

/-! ## SDFPrimitive and PrimitiveManager (`src/primitives.rs`) -/

/-- `instances: [u32; 3]`. -/
structure Vec3u where
  x : ℕ
  y : ℕ
  z : ℕ

structure SDFPrimitive where
  position : Vec3
  _pad1 : ℝ
  rotation : Vec4
  data : Vec4
  instances : Vec3u
  _pad2 : ℝ
  rgba : Vec4
  typus : ℕ
  _pad3 : Vec3

/-- Rust `Default` derive: every field zero. -/
def SDFPrimitive.defaultRecord : SDFPrimitive :=
  { position := ⟨0, 0, 0⟩, _pad1 := 0, rotation := ⟨0, 0, 0, 0⟩, data := ⟨0, 0, 0, 0⟩
    instances := ⟨0, 0, 0⟩, _pad2 := 0, rgba := ⟨0, 0, 0, 0⟩, typus := 0, _pad3 := ⟨0, 0, 0⟩ }

def SDFPrimitive.new : SDFPrimitive :=
  { SDFPrimitive.defaultRecord with
      rgba := ⟨1, 1, 1, 1⟩, typus := 0, position := ⟨0, 0, 0⟩
      rotation := ⟨0, 0, 0, 1⟩, data := ⟨0.1, 0.1, 0.1, 0.1⟩, instances := ⟨1, 1, 1⟩ }

/-- One 4-byte word of the GPU wire format: an `f32` or a `u32` slot
(`bytemuck::cast_slice` serializes each field in declaration order). -/
inductive Word where
  | f (x : ℝ)
  | u (n : ℕ)

/-- Byte layout of one `SDFPrimitive` (`#[repr(C)]`, 24 words = 96 bytes). -/
def serializePrimitive (p : SDFPrimitive) : List Word :=
  [.f p.position.x, .f p.position.y, .f p.position.z, .f p._pad1,
   .f p.rotation.x, .f p.rotation.y, .f p.rotation.z, .f p.rotation.w,
   .f p.data.x, .f p.data.y, .f p.data.z, .f p.data.w,
   .u p.instances.x, .u p.instances.y, .u p.instances.z, .f p._pad2,
   .f p.rgba.x, .f p.rgba.y, .f p.rgba.z, .f p.rgba.w,
   .u p.typus, .f p._pad3.x, .f p._pad3.y, .f p._pad3.z]

/-- `bytemuck::cast_slice` over the whole collection. -/
def serialize (ps : List SDFPrimitive) : List Word :=
  (ps.map serializePrimitive).join

/-- wgpu `Queue::write_buffer(buffer, 0, bytes)`: overwrite from offset 0,
the rest of the buffer keeps its old content. -/
def writeBuffer (buf bytes : List Word) : List Word :=
  bytes ++ buf.drop bytes.length

/-- `PrimitiveManager`, with the GPU-side buffer modelled by its content. -/
structure PrimitiveManager where
  primitives : List SDFPrimitive
  buffer : List Word

/-- `PrimitiveManager::new` (the buffer is created by
`mk_primitive_bind_group` from `vec![SDFPrimitive::new(); primitive_count]`). -/
def PrimitiveManager.new (primitive_count : ℕ) : PrimitiveManager :=
  { primitives := List.replicate primitive_count SDFPrimitive.new
    buffer := serialize (List.replicate primitive_count SDFPrimitive.new) }

def PrimitiveManager.update_primitives (m : PrimitiveManager)
    (primitive_updater : List SDFPrimitive → List SDFPrimitive) : PrimitiveManager :=
  let ps := primitive_updater m.primitives
  { primitives := ps, buffer := writeBuffer m.buffer (serialize ps) }

/-- The loop body of the built-in updater closure in `PrimitiveManager::update`. -/
def animatePrimitive (dt : ℝ) (p : SDFPrimitive) : SDFPrimitive :=
  { p with
      data := ⟨p.data.x + 0.002 * dt, p.data.y + 0.001 * dt, p.data.z + 0.001 * dt, 0.002⟩
      rgba := ⟨p.rgba.x - 0.01 * dt, p.rgba.y, p.rgba.z, p.rgba.w⟩ }

def PrimitiveManager.update (m : PrimitiveManager) (dt : ℝ) : PrimitiveManager :=
  m.update_primitives (fun primitives => primitives.map (animatePrimitive dt))

lemma serializePrimitive_length (p : SDFPrimitive) : (serializePrimitive p).length = 24 := rfl

lemma serialize_length (ps : List SDFPrimitive) : (serialize ps).length = 24 * ps.length := by
  induction ps with
  | nil => simp [serialize]
  | cons p tl ih =>
    simp only [serialize, List.map_cons, List.join] at ih ⊢
    simp [serializePrimitive_length, ih, Nat.mul_succ, Nat.mul_add]
    ring

/-! ## Claims about the primitive manager -/

lemma update_primitives_length_step
    (f : List SDFPrimitive → List SDFPrimitive)
    (hf : ∀ l, (f l).length = l.length) (m : PrimitiveManager) :
    (m.update_primitives f).primitives.length = m.primitives.length := by
  simp [PrimitiveManager.update_primitives, hf]

/-- C3 (amended): for every length-preserving mutator (the documented
mutator contract), `update_primitives` leaves the collection length
unchanged, and starting from `new capacity` any number of invocations
keeps the length equal to the capacity fixed at construction. -/
theorem update_primitives_fixed_arity
    (f : List SDFPrimitive → List SDFPrimitive)
    (hf : ∀ l, (f l).length = l.length) :
    (∀ m : PrimitiveManager,
      (m.update_primitives f).primitives.length = m.primitives.length) ∧
    (∀ n k : ℕ,
      ((fun m => m.update_primitives f)^[k] (PrimitiveManager.new n)).primitives.length = n) := by
  constructor
  · exact update_primitives_length_step f hf
  · intro n k
    induction k with
    | zero => simp [PrimitiveManager.new]
    | succ k ih =>
      rw [Function.iterate_succ_apply']
      exact (update_primitives_length_step f hf _).trans ih

theorem update_primitives_fixed_arity_witness :
    (∀ l : List SDFPrimitive, (id l).length = l.length) ∧
    (((fun m : PrimitiveManager => m.update_primitives id)^[2]
        (PrimitiveManager.new 3)).primitives.length = 3) :=
  ⟨fun _ => rfl, (update_primitives_fixed_arity id (fun _ => rfl)).2 3 2⟩

/-- C3 (counterexample): a mutator that pushes one more primitive changes
the collection length, so the claim does not hold for *every*
caller-supplied mutator. -/
theorem update_primitives_fixed_arity_cex :
    ¬ (((PrimitiveManager.new 1).update_primitives
          (fun ps => SDFPrimitive.new :: ps)).primitives.length =
        (PrimitiveManager.new 1).primitives.length) := by
  simp [PrimitiveManager.new, PrimitiveManager.update_primitives]

/-- C4 (amended): whenever the mutator preserves the collection length
(the documented mutator contract) and the buffer mirrors the collection
size, `update_primitives` leaves the GPU buffer bytewise equal to the
serialization of the whole CPU-side collection; in particular this holds
for every `update dt` call. -/
theorem update_buffer_full_reupload :
    (∀ f : List SDFPrimitive → List SDFPrimitive,
      (∀ l, (f l).length = l.length) →
      ∀ m : PrimitiveManager, m.buffer.length = 24 * m.primitives.length →
        (m.update_primitives f).buffer = serialize (m.update_primitives f).primitives) ∧
    (∀ (dt : ℝ) (m : PrimitiveManager), m.buffer.length = 24 * m.primitives.length →
      (m.update dt).buffer = serialize (m.update dt).primitives) := by
  have key : ∀ f : List SDFPrimitive → List SDFPrimitive,
      (∀ l, (f l).length = l.length) →
      ∀ m : PrimitiveManager, m.buffer.length = 24 * m.primitives.length →
        (m.update_primitives f).buffer = serialize (m.update_primitives f).primitives := by
    intro f hf m hm
    simp only [PrimitiveManager.update_primitives, writeBuffer]
    rw [List.drop_eq_nil_of_le, List.append_nil]
    rw [hm, serialize_length, hf]
  exact ⟨key, fun dt m hm => key _ (fun l => by simp) m hm⟩

theorem update_buffer_full_reupload_witness :
    ((PrimitiveManager.new 2).buffer.length = 24 * (PrimitiveManager.new 2).primitives.length) ∧
    (((PrimitiveManager.new 2).update 1).buffer =
      serialize ((PrimitiveManager.new 2).update 1).primitives) := by
  have h : (PrimitiveManager.new 2).buffer.length =
      24 * (PrimitiveManager.new 2).primitives.length := by
    simp [PrimitiveManager.new, serialize_length]
  exact ⟨h, update_buffer_full_reupload.2 1 _ h⟩

/-- C4 (counterexample): a mutator that empties the collection leaves the
stale buffer content behind (`write_buffer` overwrites only the bytes it
is given), so the buffer does not equal the serialized collection after
*every* `update_primitives` call. -/
theorem update_buffer_full_reupload_cex :
    ¬ (((PrimitiveManager.new 1).update_primitives (fun _ => [])).buffer =
        serialize ((PrimitiveManager.new 1).update_primitives (fun _ => [])).primitives) := by
  intro h
  have hlen := congrArg List.length h
  simp [PrimitiveManager.new, PrimitiveManager.update_primitives, writeBuffer,
    serialize_length, serialize] at hlen
  simp [serializePrimitive] at hlen

/-- C8: `PrimitiveManager.update dt` keeps the collection length and maps
each primitive to the same record with only the shape parameters and the
red channel changed: `data[0] += 0.002*dt`, `data[1] += 0.001*dt`,
`data[2] += 0.001*dt`, `data[3] = 0.002`, `rgba[0] -= 0.01*dt`; position,
rotation, instances, typus and the green/blue/alpha channels are kept. -/
theorem update_animates_only_shape_and_red (m : PrimitiveManager) (dt : ℝ) (i : ℕ)
    (p : SDFPrimitive) (hp : m.primitives[i]? = some p) :
    (m.update dt).primitives.length = m.primitives.length ∧
    (m.update dt).primitives[i]? = some
      { p with
          data := ⟨p.data.x + 0.002 * dt, p.data.y + 0.001 * dt, p.data.z + 0.001 * dt, 0.002⟩
          rgba := ⟨p.rgba.x - 0.01 * dt, p.rgba.y, p.rgba.z, p.rgba.w⟩ } := by
  constructor
  · simp [PrimitiveManager.update, PrimitiveManager.update_primitives]
  · show (m.primitives.map (animatePrimitive dt))[i]? = _
    rw [List.getElem?_map, hp]
    rfl

theorem update_animates_only_shape_and_red_witness :
    ((PrimitiveManager.new 1).primitives[0]? = some SDFPrimitive.new) ∧
    (((PrimitiveManager.new 1).update 2).primitives[0]? = some
      { SDFPrimitive.new with
          data := ⟨SDFPrimitive.new.data.x + 0.002 * 2, SDFPrimitive.new.data.y + 0.001 * 2,
            SDFPrimitive.new.data.z + 0.001 * 2, 0.002⟩
          rgba := ⟨SDFPrimitive.new.rgba.x - 0.01 * 2, SDFPrimitive.new.rgba.y,
            SDFPrimitive.new.rgba.z, SDFPrimitive.new.rgba.w⟩ }) :=
  ⟨rfl, (update_animates_only_shape_and_red (PrimitiveManager.new 1) 2 0 SDFPrimitive.new rfl).2⟩

/-- C9: `PrimitiveManager.new capacity` creates exactly `capacity` copies
of the default primitive record (position 0, identity quaternion, shape
data 0.1, instances 1, white color, typus 0, zero padding) and the
initial buffer holds the serialization of exactly that collection. -/
theorem new_manager_default_contents (n : ℕ) :
    (PrimitiveManager.new n).primitives = List.replicate n
      { position := ⟨0, 0, 0⟩, _pad1 := 0, rotation := ⟨0, 0, 0, 1⟩
        data := ⟨0.1, 0.1, 0.1, 0.1⟩, instances := ⟨1, 1, 1⟩, _pad2 := 0
        rgba := ⟨1, 1, 1, 1⟩, typus := 0, _pad3 := ⟨0, 0, 0⟩ } ∧
    (PrimitiveManager.new n).buffer = serialize (PrimitiveManager.new n).primitives :=
  ⟨rfl, rfl⟩

/-! ## Helper lemmas about `update_camera` -/

/-- The final pitch clamp of `update_camera`, as a standalone function
(used only to state intermediate lemmas). -/
def clampPitch (x : ℝ) : ℝ :=
  if x < -SAFE_FRAC_PI_2 then -SAFE_FRAC_PI_2
  else if x > SAFE_FRAC_PI_2 then SAFE_FRAC_PI_2
  else x

lemma update_camera_pitch_eq (s : CameraController) (camera : Camera) (dt : ℝ) :
    ((s.update_camera camera dt).2).pitch =
      clampPitch (camera.pitch + -s.rotate_vertical * s.sensitivity * dt) := rfl

lemma update_camera_yaw_eq (s : CameraController) (camera : Camera) (dt : ℝ) :
    ((s.update_camera camera dt).2).yaw =
      camera.yaw + s.rotate_horizontal * s.sensitivity * dt := rfl

lemma update_camera_fst_eq (s : CameraController) (camera : Camera) (dt : ℝ) :
    (s.update_camera camera dt).1 =
      { s with scroll := 0, rotate_horizontal := 0, rotate_vertical := 0 } := rfl

lemma two_ten_thousandths_le_pi : (0.0002 : ℝ) ≤ π := by
  have := Real.pi_gt_three
  norm_num
  linarith

lemma clampPitch_mem (x : ℝ) :
    -SAFE_FRAC_PI_2 ≤ clampPitch x ∧ clampPitch x ≤ SAFE_FRAC_PI_2 := by
  have h := two_ten_thousandths_le_pi
  unfold clampPitch SAFE_FRAC_PI_2
  split_ifs with h1 h2
  · constructor <;> norm_num at h ⊢ <;> linarith
  · constructor <;> norm_num at h ⊢ <;> linarith
  · push_neg at h1 h2
    exact ⟨h1, h2⟩

lemma clampPitch_eq_of_mem (x : ℝ) (h1 : -SAFE_FRAC_PI_2 ≤ x) (h2 : x ≤ SAFE_FRAC_PI_2) :
    clampPitch x = x := by
  unfold clampPitch
  split_ifs with hl hr
  · linarith
  · linarith
  · rfl

/-! ## Claims about the camera controller -/

/-- C2: after any `update_camera` call — whatever the prior camera state,
controller state and elapsed time — the camera pitch lies within
[-π/2 + ε, π/2 + ε] for the safety margin ε = 0.0001 (the code in fact
clamps into the tighter range [-π/2 + ε, π/2 - ε]), so arbitrarily many
calls with arbitrarily large vertical rotation input keep it bounded. -/
theorem update_camera_pitch_bounded (s : CameraController) (camera : Camera) (dt : ℝ) :
    -(π / 2) + 0.0001 ≤ ((s.update_camera camera dt).2).pitch ∧
    ((s.update_camera camera dt).2).pitch ≤ π / 2 + 0.0001 := by
  rw [update_camera_pitch_eq]
  obtain ⟨hl, hr⟩ := clampPitch_mem (camera.pitch + -s.rotate_vertical * s.sensitivity * dt)
  unfold SAFE_FRAC_PI_2 at hl hr
  constructor <;> norm_num at hl hr ⊢ <;> linarith

/-- C5: every `update_camera` call leaves the rotation deltas and the
scroll accumulator at 0; hence after one `process_mouse` and a first
`update_camera`, a second `update_camera` (with no further
`process_mouse`) changes neither yaw nor pitch. -/
theorem rotation_scroll_one_shot (s : CameraController) (camera : Camera)
    (dx dy dt1 dt2 : ℝ) :
    ((s.update_camera camera dt1).1.rotate_horizontal = 0 ∧
      (s.update_camera camera dt1).1.rotate_vertical = 0 ∧
      (s.update_camera camera dt1).1.scroll = 0) ∧
    (let r1 := (s.process_mouse dx dy).update_camera camera dt1
     let r2 := r1.1.update_camera r1.2 dt2
     r2.2.yaw = r1.2.yaw ∧ r2.2.pitch = r1.2.pitch) := by
  refine ⟨⟨rfl, rfl, rfl⟩, ?_⟩
  intro r1 r2
  have hrh : r1.1.rotate_horizontal = 0 := rfl
  have hrv : r1.1.rotate_vertical = 0 := rfl
  constructor
  · show r1.2.yaw + r1.1.rotate_horizontal * r1.1.sensitivity * dt2 = r1.2.yaw
    rw [hrh]; ring
  · show clampPitch (r1.2.pitch + -r1.1.rotate_vertical * r1.1.sensitivity * dt2) = r1.2.pitch
    rw [hrv]
    rw [show r1.2.pitch + -0 * r1.1.sensitivity * dt2 = r1.2.pitch by ring]
    have hmem : -SAFE_FRAC_PI_2 ≤ r1.2.pitch ∧ r1.2.pitch ≤ SAFE_FRAC_PI_2 := by
      have : r1.2.pitch = clampPitch (camera.pitch +
          -(s.process_mouse dx dy).rotate_vertical *
            (s.process_mouse dx dy).sensitivity * dt1) := rfl
      rw [this]
      exact clampPitch_mem _
    exact clampPitch_eq_of_mem _ hmem.1 hmem.2

/-- C7: `process_keyboard` recognizes exactly W/Up, S/Down, A/Left,
D/Right, Space and LShift, setting only the matching accumulator to 1.0
on press and 0.0 on release and returning `true`; every other key leaves
the controller unchanged and returns `false`. -/
theorem process_keyboard_recognized_keys (s : CameraController) (st : ElementState) :
    let amount : ℝ := if st = ElementState.Pressed then 1.0 else 0.0
    (s.process_keyboard .W st = ({ s with amount_forward := amount }, true)) ∧
    (s.process_keyboard .Up st = ({ s with amount_forward := amount }, true)) ∧
    (s.process_keyboard .S st = ({ s with amount_backward := amount }, true)) ∧
    (s.process_keyboard .Down st = ({ s with amount_backward := amount }, true)) ∧
    (s.process_keyboard .A st = ({ s with amount_left := amount }, true)) ∧
    (s.process_keyboard .Left st = ({ s with amount_left := amount }, true)) ∧
    (s.process_keyboard .D st = ({ s with amount_right := amount }, true)) ∧
    (s.process_keyboard .Right st = ({ s with amount_right := amount }, true)) ∧
    (s.process_keyboard .Space st = ({ s with amount_up := amount }, true)) ∧
    (s.process_keyboard .LShift st = ({ s with amount_down := amount }, true)) ∧
    (∀ code : ℕ, s.process_keyboard (.other code) st = (s, false)) := by
  exact ⟨rfl, rfl, rfl, rfl, rfl, rfl, rfl, rfl, rfl, rfl, fun _ => rfl⟩

/-- C6: `update_camera` never modifies any of the six directional
accumulators; a W press sets `amount_forward` to 1.0 and a release sets
it to 0.0; and while `amount_forward = 1` (others 0), every
`update_camera` call with positive speed and `dt > 0` displaces the
camera with a positive component along the yaw forward direction. -/
theorem directional_accumulators_persist :
    (∀ (s : CameraController) (camera : Camera) (dt : ℝ),
      (s.update_camera camera dt).1.amount_forward = s.amount_forward ∧
      (s.update_camera camera dt).1.amount_backward = s.amount_backward ∧
      (s.update_camera camera dt).1.amount_left = s.amount_left ∧
      (s.update_camera camera dt).1.amount_right = s.amount_right ∧
      (s.update_camera camera dt).1.amount_up = s.amount_up ∧
      (s.update_camera camera dt).1.amount_down = s.amount_down) ∧
    (∀ s : CameraController,
      (s.process_keyboard .W .Pressed).1.amount_forward = 1.0 ∧
      (s.process_keyboard .W .Released).1.amount_forward = 0.0) ∧
    (∀ (s : CameraController) (camera : Camera) (dt : ℝ),
      s.amount_forward = 1 → s.amount_backward = 0 → s.amount_left = 0 →
      s.amount_right = 0 → s.amount_up = 0 → s.amount_down = 0 → s.scroll = 0 →
      0 < s.speed → 0 < dt →
      0 < Vec3.dot
        (((s.update_camera camera dt).2.position).add (Vec3.neg camera.position))
        ⟨Real.cos camera.yaw, 0, Real.sin camera.yaw⟩) := by
  refine ⟨fun s camera dt => ⟨rfl, rfl, rfl, rfl, rfl, rfl⟩,
    fun s => ⟨rfl, rfl⟩, ?_⟩
  intro s camera dt h1 h2 h3 h4 h5 h6 h7 hsp hdt
  have hm : Real.sqrt (Real.cos camera.yaw * Real.cos camera.yaw + 0 * 0 +
      Real.sin camera.yaw * Real.sin camera.yaw) = 1 := by
    rw [show Real.cos camera.yaw * Real.cos camera.yaw + 0 * 0 +
        Real.sin camera.yaw * Real.sin camera.yaw =
        Real.sin camera.yaw ^ 2 + Real.cos camera.yaw ^ 2 by ring,
      Real.sin_sq_add_cos_sq, Real.sqrt_one]
  simp only [CameraController.update_camera, Vec3.add, Vec3.neg, Vec3.smul,
    Vec3.normalize, Vec3.magnitude, Vec3.dot, h1, h2, h3, h4, h5, h6, h7, hm]
  ring_nf
  nlinarith [Real.sin_sq_add_cos_sq camera.yaw, mul_pos hsp hdt]

theorem directional_accumulators_persist_witness :
    (0 : ℝ) < 4 ∧ (0 : ℝ) < 1 ∧
    0 < Vec3.dot
      ((({ amount_left := 0, amount_right := 0, amount_forward := 1, amount_backward := 0
           amount_up := 0, amount_down := 0, rotate_horizontal := 0, rotate_vertical := 0
           scroll := 0, speed := 4, sensitivity := 0.4 } :
            CameraController).update_camera ⟨⟨0, 5, 10⟩, 0, 0⟩ 1).2.position.add
        (Vec3.neg (⟨0, 5, 10⟩ : Vec3)))
      ⟨Real.cos (0 : ℝ), 0, Real.sin (0 : ℝ)⟩ :=
  ⟨by norm_num, by norm_num,
    directional_accumulators_persist.2.2 _ ⟨⟨0, 5, 10⟩, 0, 0⟩ 1
      rfl rfl rfl rfl rfl rfl rfl (by norm_num) (by norm_num)⟩

/-- C10: `update_camera` with `dt = 0` leaves position and yaw unchanged,
still resets the rotation deltas and the scroll accumulator to 0, and
still clamps the pitch into the safe range; `Camera.new` stores its
arguments without validation, so an out-of-range pitch is possible
beforehand. -/
theorem update_camera_zero_dt (s : CameraController) (camera : Camera) :
    (s.update_camera camera 0).2.position = camera.position ∧
    (s.update_camera camera 0).2.yaw = camera.yaw ∧
    ((s.update_camera camera 0).1.rotate_horizontal = 0 ∧
      (s.update_camera camera 0).1.rotate_vertical = 0 ∧
      (s.update_camera camera 0).1.scroll = 0) ∧
    (-SAFE_FRAC_PI_2 ≤ (s.update_camera camera 0).2.pitch ∧
      (s.update_camera camera 0).2.pitch ≤ SAFE_FRAC_PI_2) ∧
    (∀ (p : Vec3) (yaw pitch : ℝ), Camera.new p yaw pitch = ⟨p, yaw, pitch⟩) := by
  obtain ⟨⟨px, py, pz⟩, yaw, pitch⟩ := camera
  refine ⟨?_, ?_, ⟨rfl, rfl, rfl⟩, ?_, fun _ _ _ => rfl⟩
  · simp only [CameraController.update_camera, Vec3.add, Vec3.smul, Vec3.normalize,
      Vec3.magnitude, Vec3.mk.injEq]
    refine ⟨by ring, by ring, by ring⟩
  · rw [update_camera_yaw_eq]
    ring
  · rw [update_camera_pitch_eq]
    exact clampPitch_mem _

/-! ## Claims about the inverse view matrix -/

/-- C1 (amended): `calc_inverse_matrix` builds the look-to transform from
the negated position with the *pitch* negated but the yaw left unchanged
(the code offsets both angles by half a turn via `Angle::opposite`, which
cancels in the yaw terms of the direction vector and negates the pitch
sine) — and it is not the algebraic inverse of `calc_matrix`: their
product is not the identity even for the trivial camera pose. -/
theorem calc_inverse_matrix_characterization :
    (∀ c : Camera, c.calc_inverse_matrix =
      lookToRh (Vec3.smul (-1) c.position)
        (Vec3.normalize ⟨Real.cos (-c.pitch) * Real.cos c.yaw, Real.sin (-c.pitch),
          Real.cos (-c.pitch) * Real.sin c.yaw⟩)
        Vec3.unit_y) ∧
    (Mat4.mul (Camera.calc_inverse_matrix ⟨⟨0, 0, 0⟩, 0, 0⟩)
        (Camera.calc_matrix ⟨⟨0, 0, 0⟩, 0, 0⟩) ≠ Mat4.identity) := by
  constructor
  · intro c
    have hdir : (⟨Real.cos (radOpposite c.pitch) * Real.cos (radOpposite c.yaw),
        Real.sin (radOpposite c.pitch),
        Real.cos (radOpposite c.pitch) * Real.sin (radOpposite c.yaw)⟩ : Vec3) =
        ⟨Real.cos (-c.pitch) * Real.cos c.yaw, Real.sin (-c.pitch),
          Real.cos (-c.pitch) * Real.sin c.yaw⟩ := by
      rw [cos_radOpposite c.pitch, cos_radOpposite c.yaw, sin_radOpposite c.pitch,
        sin_radOpposite c.yaw, Real.cos_neg c.pitch, Real.sin_neg c.pitch]
      simp only [Vec3.mk.injEq]
      refine ⟨by ring, by ring, by ring⟩
    simp only [Camera.calc_inverse_matrix]
    rw [hdir]
  · intro h
    have h00 : Camera.calc_matrix ⟨⟨0, 0, 0⟩, 0, 0⟩ =
        ⟨⟨0, 0, -1, 0⟩, ⟨0, 1, 0, 0⟩, ⟨1, 0, 0, 0⟩, ⟨0, 0, 0, 1⟩⟩ := by
      simp only [Camera.calc_matrix, lookToRh, Vec3.normalize, Vec3.magnitude,
        Vec3.smul, Vec3.cross, Vec3.dot, Vec3.unit_y]
      norm_num [Real.sqrt_one]
    have hinv : Camera.calc_inverse_matrix ⟨⟨0, 0, 0⟩, 0, 0⟩ =
        ⟨⟨0, 0, -1, 0⟩, ⟨0, 1, 0, 0⟩, ⟨1, 0, 0, 0⟩, ⟨0, 0, 0, 1⟩⟩ := by
      simp only [Camera.calc_inverse_matrix, cos_radOpposite, sin_radOpposite,
        lookToRh, Vec3.normalize, Vec3.magnitude, Vec3.smul, Vec3.cross, Vec3.dot,
        Vec3.unit_y]
      norm_num [Real.sqrt_one]
    rw [h00, hinv] at h
    simp only [Mat4.mul, Mat4.mulVec, Vec4.smul, Vec4.add, Mat4.identity,
      Mat4.mk.injEq, Vec4.mk.injEq] at h
    norm_num at h

/-- C1 (counterexample): at position (0,0,0), yaw = π/2, pitch = 0 the
matrix the code computes is not the look-to transform built from the
negated yaw and pitch that the claim describes. -/
theorem calc_inverse_matrix_spec_cex :
    Camera.calc_inverse_matrix ⟨⟨0, 0, 0⟩, π / 2, 0⟩ ≠
      inverse_matrix_spec ⟨⟨0, 0, 0⟩, π / 2, 0⟩ := by
  intro h
  have h1 : Camera.calc_inverse_matrix ⟨⟨0, 0, 0⟩, π / 2, 0⟩ =
      ⟨⟨-1, 0, 0, 0⟩, ⟨0, 1, 0, 0⟩, ⟨0, 0, -1, 0⟩, ⟨0, 0, 0, 1⟩⟩ := by
    simp only [Camera.calc_inverse_matrix, cos_radOpposite, sin_radOpposite,
      lookToRh, Vec3.normalize, Vec3.magnitude, Vec3.smul, Vec3.cross, Vec3.dot,
      Vec3.unit_y]
    norm_num [Real.sqrt_one, Real.cos_pi_div_two, Real.sin_pi_div_two]
  have h2 : inverse_matrix_spec ⟨⟨0, 0, 0⟩, π / 2, 0⟩ =
      ⟨⟨1, 0, 0, 0⟩, ⟨0, 1, 0, 0⟩, ⟨0, 0, 1, 0⟩, ⟨0, 0, 0, 1⟩⟩ := by
    simp only [inverse_matrix_spec, lookToRh, Vec3.normalize, Vec3.magnitude,
      Vec3.smul, Vec3.cross, Vec3.dot, Vec3.unit_y]
    norm_num [Real.sqrt_one, Real.cos_pi_div_two, Real.sin_pi_div_two]
  rw [h1, h2] at h
  simp only [Mat4.mk.injEq, Vec4.mk.injEq] at h
  norm_num at h
